import Mathlib

/-!
# Verification of the transcoder-cluster dispatch and execution fabric

Shallow embedding of the core of `transcoder_cluster` (Python):

* `Task` and the Controller batch scheduler
  (`src/transcoder_cluster/core/controller.py`): `pop_next_task`,
  `push_retry_task`, the per-worker dispatch loop of `dispatch_tasks`,
  and `build_output_path`;
* the Worker HTTP handler (`src/transcoder_cluster/core/worker.py`):
  `parse_ffmpeg_progress`, the progress-update loop of `_execute_ffmpeg`,
  `_handle_task` and `_handle_download`;
* `FFmpegWrapper.transcode`'s progress loop
  (`src/transcoder_cluster/transcode/ffmpeg_wrapper.py`);
* `DiscoveryService._handle_message`
  (`src/transcoder_cluster/core/discovery.py`).

Modelling conventions:

* Python `float` time values are modelled as `ℚ`; `int(x)` on a
  non-negative value is `Int.floor`.
* Wall-clock timestamp strings (`datetime.now().strftime(...)`) are
  abstracted to a tick counter carried by the scheduler state; the only
  facts proved about them is whether a field is set (`Option.isSome`).
* The filesystem is a list of existing path strings; `os.path.exists p`
  is `p ∈ fs`.
* The concurrent `dispatch_tasks` thread pool is modelled as a
  small-step system: a scheduler state plus a list of actions (an
  interleaving), each action being one worker thread performing the next
  atomic section of its `worker_loop`.
-/

namespace TranscoderCluster

/-- The `Task` dataclass from `core/controller.py`.  Timestamp fields are
modelled as `Option Nat` ticks (the source stores formatted datetime
strings whose content is never inspected). -/
structure Task where
  id : String
  inputFile : String
  outputFile : String
  ffmpegArgs : List String
  status : String := "pending"
  worker : Option String := none
  progress : Int := 0
  error : Option String := none
  attempts : Nat := 0
  maxAttempts : Nat := 1
  lastWorker : Option String := none
  startTime : Option Nat := none
  endTime : Option Nat := none
  deriving Repr, DecidableEq

/-! ## `pop_next_task` (controller.py lines 379-388)

```python
def pop_next_task(worker_ip):
    with queue_lock:
        if not pending_tasks:
            return None
        if len(worker_ips) > 1:
            for idx, candidate in enumerate(pending_tasks):
                if candidate.last_worker != worker_ip:
                    return pending_tasks.pop(idx)
        return pending_tasks.pop(0)
```
-/

/-- The `for idx, candidate in enumerate(pending_tasks)` scan: remove and
return the first task whose `last_worker` differs from `worker_ip`. -/
def popFirstOther (ip : String) : List Task → Option (Task × List Task)
  | [] => none
  | t :: ts =>
    if t.lastWorker ≠ some ip then some (t, ts)
    else match popFirstOther ip ts with
      | some (u, rest) => some (u, t :: rest)
      | none => none

/-- Embeds `pop_next_task` from `dispatch_tasks`: `worker_ips` is the enclosing
worker list, `ip` the calling worker, `pending` the shared queue.
Returns the popped task and the remaining queue. -/
def popNextTask (workerIps : List String) (ip : String) (pending : List Task) :
    Option (Task × List Task) :=
  match pending with
  | [] => none
  | t :: ts =>
    if 1 < workerIps.length then
      match popFirstOther ip (t :: ts) with
      | some r => some r
      | none => some (t, ts)
    else some (t, ts)

theorem popFirstOther_eq_none {ip : String} {l : List Task}
    (h : ∀ x ∈ l, x.lastWorker = some ip) : popFirstOther ip l = none := by
  induction l with
  | nil => rfl
  | cons t ts ih =>
    simp only [popFirstOther]
    rw [if_neg (by simp [h t (List.mem_cons_self t ts)])]
    rw [ih fun x hx => h x (List.mem_cons_of_mem t hx)]

theorem popFirstOther_spec {ip : String} {a : List Task} {t : Task} {b : List Task}
    (ha : ∀ x ∈ a, x.lastWorker = some ip) (ht : t.lastWorker ≠ some ip) :
    popFirstOther ip (a ++ t :: b) = some (t, a ++ b) := by
  induction a with
  | nil => simp [popFirstOther, ht]
  | cons x xs ih =>
    simp only [List.cons_append, popFirstOther]
    rw [if_neg (by simp [ha x (List.mem_cons_self x xs)])]
    simp only [List.append_eq]
    rw [ih fun y hy => ha y (List.mem_cons_of_mem x hy)]

theorem popFirstOther_length {ip : String} {l rest : List Task} {t : Task}
    (h : popFirstOther ip l = some (t, rest)) : rest.length + 1 = l.length := by
  induction l generalizing t rest with
  | nil => simp [popFirstOther] at h
  | cons x xs ih =>
    simp only [popFirstOther] at h
    by_cases hx : x.lastWorker ≠ some ip
    · rw [if_pos hx] at h
      cases h
      simp
    · rw [if_neg hx] at h
      cases hrec : popFirstOther ip xs with
      | none => rw [hrec] at h; cases h
      | some r =>
        rw [hrec] at h
        cases r with
        | mk u rs =>
          cases h
          simp only [List.length_cons]
          rw [← ih hrec]

theorem popFirstOther_mem {ip : String} {l rest : List Task} {t : Task}
    (h : popFirstOther ip l = some (t, rest)) : t ∈ l := by
  induction l generalizing t rest with
  | nil => simp [popFirstOther] at h
  | cons x xs ih =>
    simp only [popFirstOther] at h
    by_cases hx : x.lastWorker ≠ some ip
    · rw [if_pos hx] at h
      cases h
      exact List.mem_cons_self _ _
    · rw [if_neg hx] at h
      cases hrec : popFirstOther ip xs with
      | none => rw [hrec] at h; cases h
      | some r =>
        rw [hrec] at h
        cases r with
        | mk u rs =>
          cases h
          exact List.mem_cons_of_mem _ (ih hrec)

theorem popFirstOther_sub {ip : String} {l rest : List Task} {t : Task}
    (h : popFirstOther ip l = some (t, rest)) : ∀ x ∈ rest, x ∈ l := by
  induction l generalizing t rest with
  | nil => simp [popFirstOther] at h
  | cons x xs ih =>
    simp only [popFirstOther] at h
    by_cases hx : x.lastWorker ≠ some ip
    · rw [if_pos hx] at h
      cases h
      exact fun y hy => List.mem_cons_of_mem _ hy
    · rw [if_neg hx] at h
      cases hrec : popFirstOther ip xs with
      | none => rw [hrec] at h; cases h
      | some r =>
        rw [hrec] at h
        cases r with
        | mk u rs =>
          cases h
          intro y hy
          rcases List.mem_cons.mp hy with hy | hy
          · exact hy ▸ List.mem_cons_self _ _
          · exact List.mem_cons_of_mem _ (ih hrec y hy)

/-- The embedded `pop_next_task` never returns `None` on a non-empty queue. -/
theorem popNextTask_isSome {workerIps : List String} {ip : String}
    {pending : List Task} (h : pending ≠ []) :
    (popNextTask workerIps ip pending).isSome := by
  cases pending with
  | nil => exact absurd rfl h
  | cons t ts =>
    simp only [popNextTask]
    by_cases hw : 1 < workerIps.length
    · rw [if_pos hw]
      cases hrec : popFirstOther ip (t :: ts) with
      | none => simp
      | some r => simp
    · rw [if_neg hw]; simp

theorem popNextTask_length {workerIps : List String} {ip : String}
    {pending rest : List Task} {t : Task}
    (h : popNextTask workerIps ip pending = some (t, rest)) :
    rest.length + 1 = pending.length := by
  cases pending with
  | nil => simp [popNextTask] at h
  | cons x xs =>
    simp only [popNextTask] at h
    by_cases hw : 1 < workerIps.length
    · rw [if_pos hw] at h
      cases hrec : popFirstOther ip (x :: xs) with
      | none => rw [hrec] at h; cases h; simp
      | some r =>
        rw [hrec] at h
        cases r with
        | mk u rs => cases h; exact popFirstOther_length hrec
    · rw [if_neg hw] at h; cases h; simp

theorem popNextTask_mem {workerIps : List String} {ip : String}
    {pending rest : List Task} {t : Task}
    (h : popNextTask workerIps ip pending = some (t, rest)) :
    t ∈ pending ∧ ∀ x ∈ rest, x ∈ pending := by
  cases pending with
  | nil => simp [popNextTask] at h
  | cons x xs =>
    simp only [popNextTask] at h
    by_cases hw : 1 < workerIps.length
    · rw [if_pos hw] at h
      cases hrec : popFirstOther ip (x :: xs) with
      | none =>
        rw [hrec] at h; cases h
        exact ⟨List.mem_cons_self _ _, fun y hy => List.mem_cons_of_mem _ hy⟩
      | some r =>
        rw [hrec] at h
        cases r with
        | mk u rs =>
          cases h
          exact ⟨popFirstOther_mem hrec, popFirstOther_sub hrec⟩
    · rw [if_neg hw] at h; cases h
      exact ⟨List.mem_cons_self _ _, fun y hy => List.mem_cons_of_mem _ hy⟩

/-- When some pending task has a different `last_worker` and more than one
worker IP was given, the first such task is removed and returned. -/
theorem popNextTask_other {workerIps : List String} {ip : String}
    {a : List Task} {t : Task} {b : List Task} (hw : 1 < workerIps.length)
    (ha : ∀ x ∈ a, x.lastWorker = some ip) (ht : t.lastWorker ≠ some ip) :
    popNextTask workerIps ip (a ++ t :: b) = some (t, a ++ b) := by
  cases a with
  | nil =>
    simp only [List.nil_append, popNextTask, if_pos hw]
    rw [show popFirstOther ip (t :: b) = some (t, b) from
      popFirstOther_spec (a := []) (by intro x hx; cases hx) ht]
  | cons x xs =>
    simp only [List.cons_append, popNextTask, if_pos hw]
    rw [show popFirstOther ip (x :: (xs ++ t :: b)) = some (t, x :: xs ++ b) from
      popFirstOther_spec (a := x :: xs) ha ht]
    simp

/-- With a single worker, or when every pending task was last handled by the
calling worker, the head of the queue is removed and returned. -/
theorem popNextTask_head {workerIps : List String} {ip : String}
    {t : Task} {ts : List Task}
    (h : workerIps.length ≤ 1 ∨ ∀ x ∈ t :: ts, x.lastWorker = some ip) :
    popNextTask workerIps ip (t :: ts) = some (t, ts) := by
  rcases h with h | h
  · simp [popNextTask, Nat.not_lt.mpr h]
  · simp only [popNextTask]
    rw [popFirstOther_eq_none h]
    by_cases hw : 1 < workerIps.length
    · rw [if_pos hw]
    · rw [if_neg hw]

/-- C3: `pop_next_task(worker_ip)` returns null on an empty queue; otherwise,
with more than one worker IP it removes and returns the first pending task
whose `last_worker` differs from `worker_ip`, falling back to the head of the
queue when every pending task has `last_worker == worker_ip` (or when only one
worker was given); it never returns null while the queue is non-empty. -/
theorem pop_next_task_spec (workerIps : List String) (ip : String)
    (pending : List Task) :
    (pending = [] → popNextTask workerIps ip pending = none) ∧
    (pending ≠ [] → (popNextTask workerIps ip pending).isSome) ∧
    (∀ a t b, 1 < workerIps.length → (∀ x ∈ a, x.lastWorker = some ip) →
      t.lastWorker ≠ some ip → pending = a ++ t :: b →
      popNextTask workerIps ip pending = some (t, a ++ b)) ∧
    (∀ t ts, pending = t :: ts →
      (workerIps.length ≤ 1 ∨ ∀ x ∈ pending, x.lastWorker = some ip) →
      popNextTask workerIps ip pending = some (t, ts)) := by
  refine ⟨fun h => by subst h; rfl, fun h => popNextTask_isSome h, ?_, ?_⟩
  · intro a t b hw ha ht hp
    subst hp
    exact popNextTask_other hw ha ht
  · intro t ts hp hcase
    subst hp
    exact popNextTask_head hcase

/-- A throwaway concrete task used by witnesses. -/
def sampleTask (i : String) (w : Option String) : Task :=
  { id := i, inputFile := i ++ ".mp4", outputFile := i ++ "_out.mp4",
    ffmpegArgs := ["-c:v", "libx265"], lastWorker := w }

/-- Witness for C3 at a concrete queue: with workers `A,B`, worker `A`
skips the head (last handled by `A`) and pops the second task. -/
theorem pop_next_task_spec_witness :
    popNextTask ["A", "B"] "A" [sampleTask "t1" (some "A"), sampleTask "t2" (some "B")]
      = some (sampleTask "t2" (some "B"), [sampleTask "t1" (some "A")]) := by
  have h := (pop_next_task_spec ["A", "B"] "A"
      [sampleTask "t1" (some "A"), sampleTask "t2" (some "B")]).2.2.1
    [sampleTask "t1" (some "A")] (sampleTask "t2" (some "B")) []
    (by decide)
    (by intro x hx; simp only [List.mem_singleton] at hx; subst hx; rfl)
    (by simp [sampleTask])
    rfl
  exact h

/-! ## The `dispatch_tasks` scheduler (controller.py lines 342-442)

The thread pool running one `worker_loop` per worker IP is modelled as a
small-step system.  A scheduler state records the shared queue, the per-worker
loop state, the result counters and the stop flag; an action is one worker
thread executing the next atomic section of its loop (the sections are exactly
the regions guarded by `queue_lock` plus the intervening submit call, whose
outcome `(ok, error_message)` the action carries as an oracle). -/

/-- The loop state of one `worker_loop` thread: inside the loop about to call
`pop_next_task`, processing a popped task, or returned. -/
inductive WorkerState
  | idle
  | busy (t : Task)
  | done
  deriving Repr, DecidableEq

structure SchedState where
  workerIps : List String
  pending : List Task
  wstates : List WorkerState
  completed : Nat
  failed : Nat
  /-- Tasks that reached a terminal state (`completed`/`failed`), recorded for
  the terminal-state invariants; the source keeps them via object identity in
  the caller's `tasks` list. -/
  finished : List Task
  stop : Bool
  clock : Nat
  deriving Repr, DecidableEq

inductive SchedAction
  | pop (i : Nat)
  | finish (i : Nat) (ok : Bool) (errMsg : Option String)
  | setStop
  deriving Repr, DecidableEq

/-- The per-task reset at the top of `dispatch_tasks` (lines 363-370):
status pending, progress 0, error/worker cleared, attempts 0, times cleared.
`last_worker` is deliberately not reset by the source. -/
def resetTask (t : Task) : Task :=
  { t with status := "pending", progress := 0, error := none, worker := none,
           attempts := 0, startTime := none, endTime := none }

/-- State at the start of the dispatch loop: `pending_tasks = list(tasks)`,
every worker thread in its loop, counters zero, fresh stop event. -/
def initState (tasks : List Task) (workerIps : List String) : SchedState :=
  { workerIps := workerIps, pending := tasks.map resetTask,
    wstates := workerIps.map fun _ => .idle,
    completed := 0, failed := 0, finished := [], stop := false, clock := 0 }

/-- Field writes performed on a freshly popped task by `worker_loop`
(lines 400-404) and `submit_task` (lines 243-246): assignee, `last_worker`,
`attempts += 1`, error cleared, status `uploading`, `start_time` stamped. -/
def assignTask (ip : String) (now : Nat) (t : Task) : Task :=
  { t with worker := some ip, lastWorker := some ip,
           attempts := t.attempts + 1, error := none,
           status := "uploading", startTime := some now }

/-- Python `a or b` on optional strings (`None` and `""` are falsy). -/
def pyOrStr : Option String → Option String → Option String
  | some s, b => if s = "" then b else some s
  | none, b => b

/-- One worker thread at the top of its loop: the `while not
stop_event.is_set()` check followed by `pop_next_task` (lines 395-398); a
`None` pop or a set stop flag ends the thread. -/
def applyPop (s : SchedState) (i : Nat) : SchedState :=
  match s.wstates.get? i with
  | some .idle =>
    if s.stop then
      { s with wstates := s.wstates.set i .done, clock := s.clock + 1 }
    else
      match popNextTask s.workerIps (s.workerIps.getD i "") s.pending with
      | none => { s with wstates := s.wstates.set i .done, clock := s.clock + 1 }
      | some (t, rest) =>
        { s with pending := rest,
                 wstates :=
                   s.wstates.set i (.busy (assignTask (s.workerIps.getD i "") s.clock t)),
                 clock := s.clock + 1 }
  | _ => s

/-- The `task.error = error_message or task.error or "Unknown error"` write
at line 423. -/
def failedError (msg : Option String) (t : Task) : Task :=
  { t with error := pyOrStr msg (pyOrStr t.error (some "Unknown error")) }

/-- One worker thread handling the outcome of `_submit_with_progress`
(lines 408-432): on success mark completed and count it; on failure set the
error, then either reset to pending and re-queue (attempts below the cap and
not stopping) or mark failed, stamp `end_time` and count it. -/
def applyFinish (s : SchedState) (i : Nat) (ok : Bool) (errMsg : Option String) :
    SchedState :=
  match s.wstates.get? i with
  | some (.busy t) =>
    if ok then
      { s with wstates := s.wstates.set i .idle, completed := s.completed + 1,
               finished := s.finished ++
                 [{ t with status := "completed", progress := 100, endTime := some s.clock }],
               clock := s.clock + 1 }
    else
      if t.attempts < t.maxAttempts ∧ s.stop = false then
        { s with wstates := s.wstates.set i .idle,
                 pending := s.pending ++
                   [{ failedError errMsg t with status := "pending", progress := 0 }],
                 clock := s.clock + 1 }
      else
        { s with wstates := s.wstates.set i .idle, failed := s.failed + 1,
                 finished := s.finished ++
                   [{ failedError errMsg t with status := "failed", endTime := some s.clock }],
                 clock := s.clock + 1 }
  | _ => s

def schedStep (s : SchedState) : SchedAction → SchedState
  | .pop i => applyPop s i
  | .finish i ok msg => applyFinish s i ok msg
  | .setStop => { s with stop := true, clock := s.clock + 1 }

def schedRun (s : SchedState) (as : List SchedAction) : SchedState :=
  as.foldl schedStep s

def isBusy : WorkerState → Bool
  | .busy _ => true
  | _ => false

def busyCount (ws : List WorkerState) : Nat := ws.countP isBusy

def allDone (ws : List WorkerState) : Prop := ∀ w ∈ ws, w = WorkerState.done

instance (ws : List WorkerState) : Decidable (allDone ws) := by
  unfold allDone; infer_instance

theorem countP_set {α : Type} (p : α → Bool) (ws : List α) :
    ∀ (i : Nat) (old w : α), ws.get? i = some old →
      (ws.set i w).countP p + (if p old then 1 else 0) =
        ws.countP p + (if p w then 1 else 0) := by
  induction ws with
  | nil => intro i old w h; simp at h
  | cons x xs ih =>
    intro i old w h
    cases i with
    | zero =>
      simp only [List.get?_cons_zero, Option.some.injEq] at h
      subst h
      simp only [List.set_cons_zero, List.countP_cons]
      omega
    | succ n =>
      simp only [List.get?_cons_succ] at h
      simp only [List.set_cons_succ, List.countP_cons]
      have := ih n old w h
      omega

theorem busyCount_set_done {ws : List WorkerState} {i : Nat}
    (h : ws.get? i = some .idle) :
    busyCount (ws.set i .done) = busyCount ws := by
  have h2 := countP_set isBusy ws i .idle .done h
  simp only [isBusy] at h2
  simp at h2
  unfold busyCount
  omega

theorem busyCount_set_busy {ws : List WorkerState} {i : Nat} {t : Task}
    (h : ws.get? i = some .idle) :
    busyCount (ws.set i (.busy t)) = busyCount ws + 1 := by
  have h2 := countP_set isBusy ws i .idle (.busy t) h
  simp only [isBusy] at h2
  simp at h2
  unfold busyCount
  omega

theorem busyCount_busy_to_idle {ws : List WorkerState} {i : Nat} {t : Task}
    (h : ws.get? i = some (.busy t)) :
    busyCount (ws.set i .idle) + 1 = busyCount ws := by
  have h2 := countP_set isBusy ws i (.busy t) .idle h
  simp only [isBusy] at h2
  simp at h2
  unfold busyCount
  omega

theorem mem_set_of_lt {α : Type} (ws : List α) :
    ∀ (i : Nat) (w : α), i < ws.length → w ∈ ws.set i w := by
  induction ws with
  | nil => intro i w h; simp at h
  | cons x xs ih =>
    intro i w h
    cases i with
    | zero => simp
    | succ n =>
      simp only [List.set_cons_succ, List.mem_cons]
      exact Or.inr (ih n w (by simpa using h))

theorem get?_lt_length {α : Type} {ws : List α} {i : Nat} {w : α}
    (h : ws.get? i = some w) : i < ws.length :=
  List.get?_eq_some.mp h |>.1

/-- Counting invariant: tasks are conserved between the counters, the queue
and the in-flight slots. -/
def countInv (total : Nat) (s : SchedState) : Prop :=
  s.completed + s.failed + s.pending.length + busyCount s.wstates = total

theorem countInv_step {total : Nat} {s : SchedState} (a : SchedAction)
    (h : countInv total s) : countInv total (schedStep s a) := by
  cases a with
  | setStop => exact h
  | pop i =>
    unfold countInv at h ⊢
    simp only [schedStep]
    unfold applyPop
    split
    · next hidle =>
      split
      · simpa [busyCount_set_done hidle] using h
      · split
        · next hpop => simpa [busyCount_set_done hidle] using h
        · next t rest hpop =>
          have hlen := popNextTask_length hpop
          have hb := busyCount_set_busy
            (t := assignTask (s.workerIps.getD i "") s.clock t) hidle
          simp only [hb]
          omega
    · exact h
  | finish i ok msg =>
    unfold countInv at h ⊢
    simp only [schedStep]
    unfold applyFinish
    split
    · next t hbusy =>
      have hb := busyCount_busy_to_idle hbusy
      split
      · simp only
        omega
      · split
        · simp only [List.length_append, List.length_cons, List.length_nil]
          omega
        · simp only
          omega
    · exact h

theorem countInv_schedRun {total : Nat} {s : SchedState} {as : List SchedAction}
    (h : countInv total s) : countInv total (schedRun s as) := by
  induction as generalizing s with
  | nil => exact h
  | cons a as ih =>
    simp only [schedRun, List.foldl_cons]
    exact ih (countInv_step a h)

theorem stop_step {s : SchedState} {a : SchedAction} (ha : a ≠ .setStop) :
    (schedStep s a).stop = s.stop := by
  cases a with
  | setStop => exact absurd rfl ha
  | pop i =>
    simp only [schedStep]
    unfold applyPop
    split
    · split
      · rfl
      · split <;> rfl
    · rfl
  | finish i ok msg =>
    simp only [schedStep]
    unfold applyFinish
    split
    · split
      · rfl
      · split <;> rfl
    · rfl

/-- A worker thread returns (`pop_next_task` gave `None`) only when the queue
is empty. -/
theorem popNextTask_none {workerIps : List String} {ip : String}
    {pending : List Task} (h : popNextTask workerIps ip pending = none) :
    pending = [] := by
  cases hp : pending with
  | nil => rfl
  | cons t ts =>
    subst hp
    have hs : (popNextTask workerIps ip (t :: ts)).isSome :=
      popNextTask_isSome (by simp)
    rw [h] at hs
    simp at hs

/-- If every worker thread has returned and the stop event never fired, the
queue is empty. -/
def doneInv (s : SchedState) : Prop := allDone s.wstates → s.pending = []

theorem doneInv_step {s : SchedState} {a : SchedAction} (hstop : s.stop = false)
    (ha : a ≠ .setStop) (h : doneInv s) : doneInv (schedStep s a) := by
  cases a with
  | setStop => exact absurd rfl ha
  | pop i =>
    simp only [schedStep]
    unfold applyPop
    split
    · next hidle =>
      rw [hstop]
      simp only [Bool.false_eq_true, if_false]
      split
      · next hpop =>
        intro _
        exact popNextTask_none hpop
      · next t rest hpop =>
        intro hall
        exfalso
        have hi := get?_lt_length hidle
        have hmem := mem_set_of_lt s.wstates i
          (.busy (assignTask (s.workerIps.getD i "") s.clock t)) hi
        have := hall _ hmem
        simp at this
    · exact h
  | finish i ok msg =>
    simp only [schedStep]
    unfold applyFinish
    split
    · next t hbusy =>
      have hi := get?_lt_length hbusy
      have : ∀ (s' : SchedState), s'.wstates = s.wstates.set i .idle → doneInv s' := by
        intro s' hws
        intro hall
        exfalso
        rw [hws] at hall
        have := hall _ (mem_set_of_lt s.wstates i .idle hi)
        simp at this
      split
      · exact this _ rfl
      · split
        · exact this _ rfl
        · exact this _ rfl
    · exact h

theorem doneInv_schedRun {s : SchedState} {as : List SchedAction}
    (hstop : s.stop = false) (hna : SchedAction.setStop ∉ as) (h : doneInv s) :
    doneInv (schedRun s as) := by
  induction as generalizing s with
  | nil => exact h
  | cons a as ih =>
    simp only [schedRun, List.foldl_cons] at *
    have ha : a ≠ .setStop := fun hc => hna (hc ▸ List.mem_cons_self _ _)
    have hna' : SchedAction.setStop ∉ as := fun hc => hna (List.mem_cons_of_mem _ hc)
    exact ih ((stop_step ha).trans hstop) hna' (doneInv_step hstop ha h)

theorem busyCount_eq_zero_of_allDone {ws : List WorkerState} (h : allDone ws) :
    busyCount ws = 0 := by
  unfold busyCount
  rw [List.countP_eq_zero]
  intro w hw
  rw [h w hw]
  simp [isBusy]

theorem countInv_init (tasks : List Task) (workerIps : List String) :
    countInv tasks.length (initState tasks workerIps) := by
  unfold countInv initState
  simp only [List.length_map]
  have : busyCount (workerIps.map fun _ => WorkerState.idle) = 0 := by
    unfold busyCount
    rw [List.countP_eq_zero]
    intro w hw
    simp only [List.mem_map] at hw
    obtain ⟨_, _, hw⟩ := hw
    rw [← hw]
    simp [isBusy]
  omega

/-- C1: every `dispatch_tasks` run over non-empty task and worker lists that
runs to return (every worker loop exits, no external stop event fired)
reports `completed + failed == total` with `total` the input task count. -/
theorem dispatch_tasks_completed_add_failed (tasks : List Task)
    (workerIps : List String) (actions : List SchedAction)
    (_htasks : tasks ≠ []) (hips : workerIps ≠ [])
    (hstop : SchedAction.setStop ∉ actions)
    (hdone : allDone (schedRun (initState tasks workerIps) actions).wstates) :
    (schedRun (initState tasks workerIps) actions).completed +
      (schedRun (initState tasks workerIps) actions).failed = tasks.length := by
  have hcount : countInv tasks.length (schedRun (initState tasks workerIps) actions) :=
    countInv_schedRun (countInv_init tasks workerIps)
  have hpend : (schedRun (initState tasks workerIps) actions).pending = [] :=
    doneInv_schedRun rfl hstop (fun hall => by
      exfalso
      cases workerIps with
      | nil => exact hips rfl
      | cons ip ips =>
        have : WorkerState.idle ∈ (initState tasks (ip :: ips)).wstates := by
          simp [initState]
        have := hall _ this
        simp at this) hdone
  have hbusy := busyCount_eq_zero_of_allDone hdone
  unfold countInv at hcount
  rw [hpend] at hcount
  simp only [List.length_nil] at hcount
  omega

/-- Witness for C1: one task, one worker, a successful first attempt. -/
theorem dispatch_tasks_completed_add_failed_witness :
    (schedRun (initState [sampleTask "t1" none] ["A"])
        [.pop 0, .finish 0 true none, .pop 0]).completed +
      (schedRun (initState [sampleTask "t1" none] ["A"])
        [.pop 0, .finish 0 true none, .pop 0]).failed = 1 := by
  have h := dispatch_tasks_completed_add_failed [sampleTask "t1" none] ["A"]
    [.pop 0, .finish 0 true none, .pop 0]
    (by simp) (by simp) (by decide) (by decide)
  simpa using h

theorem mem_of_get? {α : Type} {l : List α} {i : Nat} {a : α}
    (h : l.get? i = some a) : a ∈ l := by
  induction l generalizing i with
  | nil => simp at h
  | cons x xs ih =>
    cases i with
    | zero =>
      simp only [List.get?_cons_zero, Option.some.injEq] at h
      exact h ▸ List.mem_cons_self _ _
    | succ n =>
      simp only [List.get?_cons_succ] at h
      exact List.mem_cons_of_mem _ (ih h)

/-- Attempt-count invariant: queued tasks still have a retry budget, in-flight
and terminal tasks never exceeded `max_attempts`. -/
def attemptsInv (s : SchedState) : Prop :=
  (∀ t ∈ s.pending, t.attempts < t.maxAttempts) ∧
  (∀ t : Task, WorkerState.busy t ∈ s.wstates → t.attempts ≤ t.maxAttempts) ∧
  (∀ t ∈ s.finished, t.attempts ≤ t.maxAttempts)

theorem attemptsInv_step {s : SchedState} (a : SchedAction)
    (h : attemptsInv s) : attemptsInv (schedStep s a) := by
  obtain ⟨hp, hb, hf⟩ := h
  cases a with
  | setStop => exact ⟨hp, hb, hf⟩
  | pop i =>
    simp only [schedStep]
    unfold applyPop
    split
    · next hidle =>
      split
      · refine ⟨hp, ?_, hf⟩
        intro t ht
        rcases List.mem_or_eq_of_mem_set ht with ht | ht
        · exact hb t ht
        · cases ht
      · split
        · next hpop =>
          refine ⟨hp, ?_, hf⟩
          intro t ht
          rcases List.mem_or_eq_of_mem_set ht with ht | ht
          · exact hb t ht
          · cases ht
        · next t rest hpop =>
          obtain ⟨htmem, hsub⟩ := popNextTask_mem hpop
          refine ⟨fun x hx => hp x (hsub x hx), ?_, hf⟩
          intro u hu
          rcases List.mem_or_eq_of_mem_set hu with hu | hu
          · exact hb u hu
          · have := hp t htmem
            cases hu
            simp only [assignTask]
            omega
    · exact ⟨hp, hb, hf⟩
  | finish i ok msg =>
    simp only [schedStep]
    unfold applyFinish
    split
    · next t hbusy =>
      have htle : t.attempts ≤ t.maxAttempts := hb t (mem_of_get? hbusy)
      have hset : ∀ u : Task, WorkerState.busy u ∈ s.wstates.set i .idle →
          u.attempts ≤ u.maxAttempts := by
        intro u hu
        rcases List.mem_or_eq_of_mem_set hu with hu | hu
        · exact hb u hu
        · cases hu
      split
      · refine ⟨hp, hset, ?_⟩
        intro u hu
        rcases List.mem_append.mp hu with hu | hu
        · exact hf u hu
        · simp only [List.mem_singleton] at hu
          subst hu
          exact htle
      · split
        · next hretry =>
          refine ⟨?_, hset, hf⟩
          intro u hu
          rcases List.mem_append.mp hu with hu | hu
          · exact hp u hu
          · simp only [List.mem_singleton] at hu
            subst hu
            simpa [failedError] using hretry.1
        · refine ⟨hp, hset, ?_⟩
          intro u hu
          rcases List.mem_append.mp hu with hu | hu
          · exact hf u hu
          · simp only [List.mem_singleton] at hu
            subst hu
            simpa [failedError] using htle
    · exact ⟨hp, hb, hf⟩

theorem attemptsInv_schedRun {s : SchedState} {as : List SchedAction}
    (h : attemptsInv s) : attemptsInv (schedRun s as) := by
  induction as generalizing s with
  | nil => exact h
  | cons a as ih =>
    simp only [schedRun, List.foldl_cons] at *
    exact ih (attemptsInv_step a h)

theorem attemptsInv_init {tasks : List Task} {workerIps : List String}
    (h : ∀ t ∈ tasks, 1 ≤ t.maxAttempts) :
    attemptsInv (initState tasks workerIps) := by
  refine ⟨?_, ?_, ?_⟩
  · intro t ht
    simp only [initState, List.mem_map] at ht
    obtain ⟨u, hu, hmap⟩ := ht
    have := h u hu
    subst hmap
    simpa [resetTask] using this
  · intro t ht
    simp only [initState, List.mem_map] at ht
    obtain ⟨_, _, hw⟩ := ht
    cases hw
  · intro t ht
    simp [initState] at ht

/-- C2: after a failed attempt, the per-worker loop either resets the task to
pending with progress 0 and appends it back to the queue (when
`attempts < max_attempts` and the stop event is not set), or marks it failed
with `end_time` set and increments the failed counter; consequently, for
batches whose tasks all have `max_attempts ≥ 1`, every task reaching a
terminal state has `attempts ≤ max_attempts`. -/
theorem worker_loop_failure_handling :
    (∀ (s : SchedState) (i : Nat) (t : Task) (msg : Option String),
      s.wstates.get? i = some (.busy t) →
      ((t.attempts < t.maxAttempts ∧ s.stop = false →
        (applyFinish s i false msg).pending =
          s.pending ++ [{ failedError msg t with status := "pending", progress := 0 }] ∧
        (applyFinish s i false msg).failed = s.failed) ∧
       (¬(t.attempts < t.maxAttempts ∧ s.stop = false) →
        (applyFinish s i false msg).failed = s.failed + 1 ∧
        (applyFinish s i false msg).finished =
          s.finished ++ [{ failedError msg t with status := "failed", endTime := some s.clock }] ∧
        ({ failedError msg t with
            status := "failed", endTime := some s.clock } : Task).endTime.isSome))) ∧
    (∀ (tasks : List Task) (workerIps : List String) (actions : List SchedAction),
      (∀ t ∈ tasks, 1 ≤ t.maxAttempts) →
      ∀ t ∈ (schedRun (initState tasks workerIps) actions).finished,
        t.attempts ≤ t.maxAttempts) := by
  constructor
  · intro s i t msg hbusy
    constructor
    · intro hretry
      unfold applyFinish
      rw [hbusy]
      simp only [Bool.false_eq_true, if_false, if_pos hretry]
      exact ⟨trivial, trivial⟩
    · intro hterm
      unfold applyFinish
      rw [hbusy]
      simp only [Bool.false_eq_true, if_false, if_neg hterm]
      exact ⟨trivial, trivial, rfl⟩
  · intro tasks workerIps actions hmax t ht
    exact (attemptsInv_schedRun (attemptsInv_init hmax)).2.2 t ht

/-- Witness for C2 at a concrete state: worker 0 fails a task with one
remaining attempt; the task is re-queued as pending with progress 0, and a
final failure in a concrete one-worker run leaves terminal attempts within
`max_attempts`. -/
theorem worker_loop_failure_handling_witness :
    (applyFinish
        { workerIps := ["A"], pending := [],
          wstates := [.busy { sampleTask "t" (some "A") with attempts := 1, maxAttempts := 2 }],
          completed := 0, failed := 0, finished := [], stop := false, clock := 5 }
        0 false (some "boom")).pending =
      [{ failedError (some "boom") { sampleTask "t" (some "A") with attempts := 1, maxAttempts := 2 } with
          status := "pending", progress := 0 }] ∧
    ∀ t ∈ (schedRun (initState [sampleTask "t1" none] ["A"])
        [.pop 0, .finish 0 false none, .pop 0]).finished,
      t.attempts ≤ t.maxAttempts := by
  constructor
  · exact ((worker_loop_failure_handling.1
      { workerIps := ["A"], pending := [],
        wstates := [.busy { sampleTask "t" (some "A") with attempts := 1, maxAttempts := 2 }],
        completed := 0, failed := 0, finished := [], stop := false, clock := 5 }
      0 { sampleTask "t" (some "A") with attempts := 1, maxAttempts := 2 }
      (some "boom") rfl).1 (by exact ⟨by decide, rfl⟩)).1
  · exact worker_loop_failure_handling.2 [sampleTask "t1" none] ["A"]
      [.pop 0, .finish 0 false none, .pop 0]
      (by intro t ht; simp only [List.mem_singleton] at ht; subst ht; exact Nat.le_refl 1)

/-! ## Entry guards of `dispatch_tasks` (controller.py lines 358-361)

```python
if not tasks:
    return {"total": 0, "completed": 0, "failed": 0}
if not worker_ips:
    raise RuntimeError("没有可用的 Worker 节点")
```
-/

/-- Outcome of the guard section at the top of `dispatch_tasks`: an immediate
report, a raised `RuntimeError`, or entry into the dispatch loop. -/
inductive DispatchInit
  | immediate (total completed failed : Nat)
  | noWorkers (msg : String)
  | run (s : SchedState)
  deriving Repr, DecidableEq

def dispatchInit (tasks : List Task) (workerIps : List String) : DispatchInit :=
  if tasks.isEmpty then .immediate 0 0 0
  else if workerIps.isEmpty then .noWorkers "没有可用的 Worker 节点"
  else .run (initState tasks workerIps)

/-- C7: an empty task list makes `dispatch_tasks` return
`{total:0, completed:0, failed:0}` immediately, even when the worker list is
also empty; a non-empty task list with an empty worker list raises the
no-workers `RuntimeError` instead of returning a report. -/
theorem dispatch_tasks_guards :
    (∀ workerIps : List String, dispatchInit [] workerIps = .immediate 0 0 0) ∧
    (∀ tasks : List Task, tasks ≠ [] →
      dispatchInit tasks [] = .noWorkers "没有可用的 Worker 节点") := by
  constructor
  · intro workerIps
    rfl
  · intro tasks htasks
    unfold dispatchInit
    rw [if_neg (by simpa using htasks)]
    rfl

/-- Witness for C7: both guards at concrete inputs, including the empty-tasks
case with an empty worker list. -/
theorem dispatch_tasks_guards_witness :
    dispatchInit [] [] = .immediate 0 0 0 ∧
    dispatchInit [sampleTask "t1" none] [] = .noWorkers "没有可用的 Worker 节点" :=
  ⟨dispatch_tasks_guards.1 [],
   dispatch_tasks_guards.2 [sampleTask "t1" none] (by simp)⟩

/-! ## `build_output_path` (controller.py lines 200-211)

```python
directory = os.path.dirname(input_file)
name, ext = os.path.splitext(os.path.basename(input_file))
output = os.path.join(directory, f"{name}{suffix}{ext}")
index = 2
while os.path.exists(output):
    output = os.path.join(directory, f"{name}{suffix}_{index}{ext}")
    index += 1
return output
```

The path helpers follow `posixpath` semantics with separator `/`.  The
filesystem is a list `fs` of existing paths.  The unbounded `while` loop is
modelled with explicit fuel; every statement holds for any fuel that reaches
the first free index (the source loop diverges exactly when no such index
exists). -/

/-- Splits a character list at the last occurrence of `c`:
`(part before, part after)`, neither containing that occurrence. -/
def breakLast (c : Char) : List Char → Option (List Char × List Char)
  | [] => none
  | x :: xs =>
    match breakLast c xs with
    | some (a, b) => some (x :: a, b)
    | none => if x = c then some ([], xs) else none

/-- Embeds `os.path.basename`: the part after the last separator. -/
def basename (p : String) : String :=
  match breakLast '/' p.toList with
  | some (_, after) => ⟨after⟩
  | none => p

/-- Embeds `os.path.dirname`: the head before the last separator, with
trailing separators stripped unless the head is all separators. -/
def dirname (p : String) : String :=
  match breakLast '/' p.toList with
  | none => ""
  | some (before, _) =>
    let head := before ++ ['/']
    if head.all (· = '/') then ⟨head⟩
    else ⟨(head.reverse.dropWhile (· = '/')).reverse⟩

/-- Embeds `os.path.splitext` on a basename: split at the last dot, except
that a purely leading run of dots never starts an extension. -/
def splitext (b : String) : String × String :=
  match breakLast '.' b.toList with
  | none => (b, "")
  | some (before, after) =>
    if before.all (· = '.') then (b, "")
    else (⟨before⟩, ⟨'.' :: after⟩)

/-- Tests whether the second character list starts with the first. -/
def leadMatch : List Char → List Char → Bool
  | [], _ => true
  | _ :: _, [] => false
  | x :: xs, y :: ys => x = y && leadMatch xs ys

def strStartsWith (s pat : String) : Bool := leadMatch pat.toList s.toList

def strEndsWith (s pat : String) : Bool :=
  leadMatch pat.toList.reverse s.toList.reverse

/-- Embeds two-argument `os.path.join`. -/
def joinPath (a b : String) : String :=
  if strStartsWith b "/" then b
  else if a = "" ∨ strEndsWith a "/" then a ++ b
  else a ++ "/" ++ b

/-- The initial candidate `dir/name<suffix>.ext`. -/
def basePath (directory name suffix ext : String) : String :=
  joinPath directory (name ++ suffix ++ ext)

/-- The k-th fallback candidate `dir/name<suffix>_k.ext`. -/
def candidatePath (directory name suffix ext : String) (k : Nat) : String :=
  joinPath directory (name ++ suffix ++ "_" ++ toString k ++ ext)

/-- The `while os.path.exists(output)` loop, with explicit fuel. -/
def findFreePath (fs : List String) (directory name suffix ext : String) :
    Nat → String → Nat → String
  | 0, output, _ => output
  | fuel + 1, output, index =>
    if output ∈ fs then
      findFreePath fs directory name suffix ext fuel
        (candidatePath directory name suffix ext index) (index + 1)
    else output

def build_output_path (fs : List String) (fuel : Nat)
    (inputFile suffix : String) : String :=
  findFreePath fs (dirname inputFile) (splitext (basename inputFile)).1 suffix
    (splitext (basename inputFile)).2 fuel
    (basePath (dirname inputFile) (splitext (basename inputFile)).1 suffix
      (splitext (basename inputFile)).2) 2

/-- The default output path of `build_output_path` before collision checks. -/
def outputBase (inputFile suffix : String) : String :=
  basePath (dirname inputFile) (splitext (basename inputFile)).1 suffix
    (splitext (basename inputFile)).2

/-- The k-th collision fallback of `build_output_path`. -/
def outputCandidate (inputFile suffix : String) (k : Nat) : String :=
  candidatePath (dirname inputFile) (splitext (basename inputFile)).1 suffix
    (splitext (basename inputFile)).2 k

theorem findFreePath_free {fs : List String} {directory name suffix ext : String}
    {output : String} (h : output ∉ fs) (fuel index : Nat) :
    findFreePath fs directory name suffix ext fuel output index = output := by
  cases fuel with
  | zero => rfl
  | succ n =>
    unfold findFreePath
    rw [if_neg h]

theorem findFreePath_finds {fs : List String} {directory name suffix ext : String}
    {k : Nat} (hk : candidatePath directory name suffix ext k ∉ fs) :
    ∀ (fuel index : Nat) (output : String), index ≤ k → output ∈ fs →
      (∀ j, index ≤ j → j < k → candidatePath directory name suffix ext j ∈ fs) →
      k + 1 ≤ fuel + index →
      findFreePath fs directory name suffix ext fuel output index =
        candidatePath directory name suffix ext k := by
  intro fuel
  induction fuel with
  | zero => intro index output hik _ _ hfuel; omega
  | succ n ih =>
    intro index output hik hout hall hfuel
    unfold findFreePath
    rw [if_pos hout]
    rcases Nat.lt_or_ge index k with hlt | hge
    · exact ih (index + 1) _ (by omega) (hall index (Nat.le_refl _) hlt)
        (fun j hj hjk => hall j (by omega) hjk) (by omega)
    · have hik' : index = k := by omega
      subst hik'
      exact findFreePath_free hk n (index + 1)

/-- C6: `build_output_path(input_file, suffix)` returns the base path
`dir/name<suffix>.ext` when it does not exist, and otherwise
`dir/name<suffix>_k.ext` for the smallest `k ≥ 2` whose path does not exist;
the returned path never names an existing file; with the default suffix
`_transcoded`, input `clip.mp4` next to an existing `clip_transcoded.mp4`
yields `clip_transcoded_2.mp4`. -/
theorem build_output_path_spec (fs : List String) (inputFile suffix : String) :
    (∀ fuel, outputBase inputFile suffix ∉ fs →
      build_output_path fs fuel inputFile suffix = outputBase inputFile suffix ∧
      build_output_path fs fuel inputFile suffix ∉ fs) ∧
    (∀ k fuel, outputBase inputFile suffix ∈ fs → 2 ≤ k →
      (∀ j, 2 ≤ j → j < k → outputCandidate inputFile suffix j ∈ fs) →
      outputCandidate inputFile suffix k ∉ fs → k ≤ fuel + 1 →
      build_output_path fs fuel inputFile suffix =
        outputCandidate inputFile suffix k ∧
      build_output_path fs fuel inputFile suffix ∉ fs) ∧
    build_output_path ["clip_transcoded.mp4"] 1 "clip.mp4" "_transcoded" =
      "clip_transcoded_2.mp4" := by
  refine ⟨?_, ?_, by rfl⟩
  · intro fuel h
    have he : build_output_path fs fuel inputFile suffix =
        outputBase inputFile suffix :=
      findFreePath_free h fuel 2
    exact ⟨he, by rw [show build_output_path fs fuel inputFile suffix =
      outputBase inputFile suffix from he]; exact h⟩
  · intro k fuel hbase hk hall hfree hfuel
    have he : build_output_path fs fuel inputFile suffix =
        outputCandidate inputFile suffix k :=
      findFreePath_finds hfree fuel 2 _ hk hbase
        (fun j hj hjk => hall j hj hjk) (by omega)
    exact ⟨he, by rw [show build_output_path fs fuel inputFile suffix =
      outputCandidate inputFile suffix k from he]; exact hfree⟩

/-- Witness for C6: with `clip_transcoded.mp4` and `clip_transcoded_2.mp4`
both present, the chosen path is `clip_transcoded_3.mp4`, a non-existing
file. -/
theorem build_output_path_spec_witness :
    build_output_path ["clip_transcoded.mp4", "clip_transcoded_2.mp4"] 2
        "clip.mp4" "_transcoded" = "clip_transcoded_3.mp4" ∧
    build_output_path ["clip_transcoded.mp4", "clip_transcoded_2.mp4"] 2
        "clip.mp4" "_transcoded" ∉ ["clip_transcoded.mp4", "clip_transcoded_2.mp4"] := by
  have h := (build_output_path_spec ["clip_transcoded.mp4", "clip_transcoded_2.mp4"]
      "clip.mp4" "_transcoded").2.1 3 2
    (by decide) (by decide)
    (by intro j h2 h3; interval_cases j; decide)
    (by decide) (by decide)
  have he : outputCandidate "clip.mp4" "_transcoded" 3 = "clip_transcoded_3.mp4" := by decide
  exact ⟨h.1.trans he, h.2⟩

/-! ## `parse_ffmpeg_progress` (worker.py lines 24-38) and the progress
loops of `_execute_ffmpeg` (worker.py lines 148-156) and
`FFmpegWrapper.transcode` (ffmpeg_wrapper.py lines 141-148)

```python
match = re.search(r'time=(\d+):(\d+):([\d\.]+)', line)
if match:
    h, m, s = map(float, match.groups())
    return h * 3600 + m * 60 + s
return None
```

Python floats are modelled as `ℚ`; `\d` is modelled as the ASCII digits
ffmpeg emits.  A matched third group on which Python `float()` raises
`ValueError` (more than one dot, or a lone dot) is modelled as the
`.valueError` outcome: the exception propagates out of
`parse_ffmpeg_progress`, aborts the `for line in proc.stderr` loop, and is
caught by the `except Exception` handler of `_execute_ffmpeg`
(lines 184-192), which puts the slot into `error` with progress 0. -/

def digitsToNat (ds : List Char) : Nat :=
  ds.foldl (fun n c => 10 * n + (c.toNat - 48)) 0

/-- Splits a character list at the first dot, if any. -/
def splitDot : List Char → List Char × Option (List Char)
  | [] => ([], none)
  | c :: cs =>
    if c = '.' then ([], some cs)
    else
      let (a, r) := splitDot cs
      (c :: a, r)

/-- Python `float()` on a `[\d.]+` group, as an exact rational; `none`
means `float()` raises `ValueError` (more than one dot, or a lone dot). -/
def parseFloatChars (cs : List Char) : Option ℚ :=
  match splitDot cs with
  | (a, none) => if a = [] then none else some (digitsToNat a : ℚ)
  | (a, some rest) =>
    match splitDot rest with
    | (b, none) =>
      if a = [] ∧ b = [] then none
      else some ((digitsToNat a : ℚ) + (digitsToNat b : ℚ) / (10 ^ b.length : ℚ))
    | (_, some _) => none

/-- Tries to match `time=(\d+):(\d+):([\d.]+)` at the head of the list,
returning the two numeric groups and the raw third group. -/
def matchTimeAt (cs : List Char) : Option (Nat × Nat × List Char) :=
  match cs with
  | 't' :: 'i' :: 'm' :: 'e' :: '=' :: rest =>
    let (g1, r1) := rest.span Char.isDigit
    if g1 = [] then none
    else
      match r1 with
      | ':' :: r2 =>
        let (g2, r3) := r2.span Char.isDigit
        if g2 = [] then none
        else
          match r3 with
          | ':' :: r4 =>
            let (g3, _) := r4.span fun c => c.isDigit || c = '.'
            if g3 = [] then none else some (digitsToNat g1, digitsToNat g2, g3)
          | _ => none
      | _ => none
  | _ => none

/-- The leftmost-match search of `re.search`. -/
def searchTime : List Char → Option (Nat × Nat × List Char)
  | [] => none
  | c :: cs =>
    match matchTimeAt (c :: cs) with
    | some r => some r
    | none => searchTime cs

/-- Outcome of `parse_ffmpeg_progress` on one line: no regex match (the
function returns `None`), a `ValueError` raised by `float()` on the matched
third group, or the computed seconds value. -/
inductive ProgressParse
  | noMatch
  | valueError
  | seconds (s : ℚ)
  deriving Repr, DecidableEq

def parse_ffmpeg_progress (line : String) : ProgressParse :=
  match searchTime line.toList with
  | none => .noMatch
  | some (h, m, g3) =>
    match parseFloatChars g3 with
    | none => .valueError
    | some s => .seconds ((h : ℚ) * 3600 + (m : ℚ) * 60 + s)

/-- Python `int()`: truncation toward zero. -/
def pyInt (q : ℚ) : Int := if 0 ≤ q then ⌊q⌋ else ⌈q⌉

/-- The class-level `WorkerHandler.status` execution slot (worker.py
lines 45-49), with the timestamp and error-string fields abstracted away. -/
structure SlotStatus where
  status : String
  currentTask : Option String
  progress : Int
  deriving Repr, DecidableEq

/-- One iteration of the stderr loop in `_execute_ffmpeg` (worker.py lines
149-156).  The state is `(last_percent, slot progress)`; initially
`(-1, 0)`.  Note `if sec and duration:`: a non-matching line, a zero
seconds value, and an absent or zero duration all skip the update; the
computed percent is `int(sec / duration * 100)` with no clamping; a
`ValueError` from `float()` propagates (`.error`). -/
def execProgressLine (duration : Option ℚ) (st : Int × Int) (line : String) :
    Except String (Int × Int) :=
  match parse_ffmpeg_progress line with
  | .noMatch => .ok st
  | .valueError => .error "could not convert string to float"
  | .seconds sec =>
    match duration with
    | none => .ok st
    | some d =>
      if sec ≠ 0 ∧ d ≠ 0 then
        let percent : Int := pyInt (sec / d * 100)
        if percent ≠ st.1 then .ok (percent, percent) else .ok st
      else .ok st

/-- The whole `for line in proc.stderr` loop of `_execute_ffmpeg`: a raised
`ValueError` aborts it, leaving the remaining lines unread. -/
def execProgressLoop (duration : Option ℚ) (st : Int × Int) :
    List String → Except String (Int × Int)
  | [] => .ok st
  | line :: rest =>
    match execProgressLine duration st line with
    | .ok st' => execProgressLoop duration st' rest
    | .error e => .error e

/-- The stderr loop composed with the `except Exception` handler of
`_execute_ffmpeg` (worker.py lines 184-192): on an exception the slot
becomes `{status: error, current_task: None, progress: 0}`; otherwise the
final `(last_percent, progress)` pair stands. -/
def runProgressLoop (duration : Option ℚ) (lines : List String) :
    (Int × Int) ⊕ SlotStatus :=
  match execProgressLoop duration (-1, 0) lines with
  | .ok st => .inl st
  | .error _ => .inr { status := "error", currentTask := none, progress := 0 }

/-- One iteration of the stderr loop in `FFmpegWrapper.transcode`
(ffmpeg_wrapper.py lines 142-148), with a registered progress callback.
The state is `(last_percent, callback arguments so far)`; here the percent
is `min(99, int(sec / duration * 100))`; a `ValueError` likewise propagates
(the surrounding `try` of `transcode` then returns `False`). -/
def wrapperProgressLine (duration : Option ℚ) (st : Int × List Int)
    (line : String) : Except String (Int × List Int) :=
  match parse_ffmpeg_progress line with
  | .noMatch => .ok st
  | .valueError => .error "could not convert string to float"
  | .seconds sec =>
    match duration with
    | none => .ok st
    | some d =>
      if sec ≠ 0 ∧ d ≠ 0 then
        let percent : Int := min 99 (pyInt (sec / d * 100))
        if percent ≠ st.1 then .ok (percent, st.2 ++ [percent]) else .ok st
      else .ok st

/-- Helper evaluation: the sample stderr fragment parses to 21 seconds. -/
theorem parse_sample_line :
    parse_ffmpeg_progress "time=0:00:21.0" = .seconds 21 := by
  have h0 : parse_ffmpeg_progress "time=0:00:21.0" =
      .seconds (((0 : Nat) : ℚ) * 3600 + ((0 : Nat) : ℚ) * 60 +
        (((21 : Nat) : ℚ) + ((0 : Nat) : ℚ) / ((10 : ℚ) ^ (1 : Nat)))) := rfl
  rw [h0]
  norm_num

/-- Helper evaluation: on a matched multi-dot time group, `float()` raises. -/
theorem parse_raise_line :
    parse_ffmpeg_progress "time=1:2:3.4.5" = .valueError := rfl

/-- C5 (corrected): per stderr line, a regex match yields
`seconds = h*3600 + m*60 + s`; the execution-slot loop then writes
`percent = int(seconds/duration*100)` — with no clamping — exactly when it
differs from the previous value; non-matching lines, matched lines whose
seconds value is zero, and lines seen with an absent or zero duration leave
progress unchanged; a matched group `float()` cannot parse raises
`ValueError`, aborting the stderr loop and turning the slot to `error` with
progress 0; the separate `FFmpegWrapper.transcode` loop is the one that
clamps its callback percent to at most 99. -/
theorem ffmpeg_progress_update_spec :
    (∀ (line : String) (h m : Nat) (g3 : List Char) (s : ℚ),
      searchTime line.toList = some (h, m, g3) → parseFloatChars g3 = some s →
      parse_ffmpeg_progress line = .seconds ((h : ℚ) * 3600 + (m : ℚ) * 60 + s)) ∧
    (∀ (line : String) (h m : Nat) (g3 : List Char),
      searchTime line.toList = some (h, m, g3) → parseFloatChars g3 = none →
      parse_ffmpeg_progress line = .valueError) ∧
    (∀ (duration : Option ℚ) (st : Int × Int) (line : String),
      parse_ffmpeg_progress line = .noMatch →
      execProgressLine duration st line = .ok st) ∧
    (∀ (duration : Option ℚ) (st : Int × Int) (line : String),
      parse_ffmpeg_progress line = .valueError →
      execProgressLine duration st line =
        .error "could not convert string to float") ∧
    (∀ (duration : Option ℚ) (st : Int × Int) (line : String)
        (rest : List String) (e : String),
      execProgressLine duration st line = .error e →
      execProgressLoop duration st (line :: rest) = .error e) ∧
    (∀ (duration : Option ℚ) (lines : List String) (e : String),
      execProgressLoop duration (-1, 0) lines = .error e →
      runProgressLoop duration lines =
        .inr { status := "error", currentTask := none, progress := 0 }) ∧
    (∀ (duration : Option ℚ) (st : Int × Int) (line : String),
      parse_ffmpeg_progress line = .seconds 0 →
      execProgressLine duration st line = .ok st) ∧
    (∀ (st : Int × Int) (line : String) (sec : ℚ),
      parse_ffmpeg_progress line = .seconds sec →
      execProgressLine none st line = .ok st) ∧
    (∀ (st : Int × Int) (line : String) (sec : ℚ),
      parse_ffmpeg_progress line = .seconds sec →
      execProgressLine (some 0) st line = .ok st) ∧
    (∀ (st : Int × Int) (line : String) (sec d : ℚ),
      parse_ffmpeg_progress line = .seconds sec → sec ≠ 0 → d ≠ 0 →
      execProgressLine (some d) st line =
        .ok (if pyInt (sec / d * 100) ≠ st.1
             then (pyInt (sec / d * 100), pyInt (sec / d * 100)) else st)) ∧
    (∀ (duration : Option ℚ) (st : Int × List Int) (line : String),
      parse_ffmpeg_progress line = .valueError →
      wrapperProgressLine duration st line =
        .error "could not convert string to float") ∧
    (∀ (st : Int × List Int) (line : String) (sec d : ℚ),
      parse_ffmpeg_progress line = .seconds sec → sec ≠ 0 → d ≠ 0 →
      wrapperProgressLine (some d) st line =
        .ok (if min 99 (pyInt (sec / d * 100)) ≠ st.1
             then (min 99 (pyInt (sec / d * 100)),
                   st.2 ++ [min 99 (pyInt (sec / d * 100))])
             else st)) ∧
    (∀ sec d : ℚ, min 99 (pyInt (sec / d * 100)) ≤ 99) := by
  refine ⟨?_, ?_, ?_, ?_, ?_, ?_, ?_, ?_, ?_, ?_, ?_, ?_, ?_⟩
  · intro line h m g3 s hsearch hfloat
    unfold parse_ffmpeg_progress
    rw [hsearch]
    dsimp only
    rw [hfloat]
  · intro line h m g3 hsearch hfloat
    unfold parse_ffmpeg_progress
    rw [hsearch]
    dsimp only
    rw [hfloat]
  · intro duration st line hp
    unfold execProgressLine
    rw [hp]
  · intro duration st line hp
    unfold execProgressLine
    rw [hp]
  · intro duration st line rest e he
    unfold execProgressLoop
    rw [he]
  · intro duration lines e he
    unfold runProgressLoop
    rw [he]
  · intro duration st line hp
    unfold execProgressLine
    rw [hp]
    cases duration with
    | none => rfl
    | some d => simp
  · intro st line sec hp
    unfold execProgressLine
    rw [hp]
  · intro st line sec hp
    unfold execProgressLine
    rw [hp]
    simp
  · intro st line sec d hp hsec hd
    unfold execProgressLine
    rw [hp]
    simp only [if_pos (And.intro hsec hd)]
    split <;> rfl
  · intro duration st line hp
    unfold wrapperProgressLine
    rw [hp]
  · intro st line sec d hp hsec hd
    unfold wrapperProgressLine
    rw [hp]
    simp only [if_pos (And.intro hsec hd)]
    split <;> rfl
  · intro sec d
    exact min_le_left _ _

/-- Counterexample to C5 as stated: on the line `time=0:00:21.0` with a
20-second duration the execution-slot loop computes percent 105 and writes
it, even though 105 lies outside the claimed clamp range `[0, 99]`. -/
theorem exec_progress_unclamped_counterexample :
    execProgressLine (some 20) (-1, 0) "time=0:00:21.0" = .ok (105, 105) ∧
    ¬((105 : Int) ≤ 99) := by
  constructor
  · unfold execProgressLine
    rw [parse_sample_line]
    dsimp only
    have h1 : ((21 : ℚ) ≠ 0 ∧ (20 : ℚ) ≠ 0) := by norm_num
    rw [if_pos h1]
    have h2 : pyInt ((21 : ℚ) / 20 * 100) = 105 := by
      unfold pyInt
      rw [if_pos (by norm_num)]
      rw [show (21 : ℚ) / 20 * 100 = 105 by norm_num]
      norm_num
    rw [h2]
    norm_num
  · decide

/-- Witness for the amended C5 at concrete inputs: the sample line with
duration 20 writes the unclamped percent 105 in the slot path and the
clamped 99 in the wrapper path, and a raising line aborts the loop so that
the slot errors with progress 0. -/
theorem ffmpeg_progress_update_spec_witness :
    execProgressLine (some 20) (-1, 0) "time=0:00:21.0" =
      .ok (if pyInt ((21 : ℚ) / 20 * 100) ≠ (-1 : Int)
           then (pyInt ((21 : ℚ) / 20 * 100), pyInt ((21 : ℚ) / 20 * 100))
           else ((-1 : Int), (0 : Int))) ∧
    wrapperProgressLine (some 20) (-1, []) "time=0:00:21.0" =
      .ok (if min 99 (pyInt ((21 : ℚ) / 20 * 100)) ≠ (-1 : Int)
           then (min 99 (pyInt ((21 : ℚ) / 20 * 100)),
                 [min 99 (pyInt ((21 : ℚ) / 20 * 100))])
           else ((-1 : Int), ([] : List Int))) ∧
    execProgressLine (some 20) (-1, 0) "time=1:2:3.4.5" =
      .error "could not convert string to float" ∧
    runProgressLoop (some 20) ["time=1:2:3.4.5", "time=0:00:21.0"] =
      .inr { status := "error", currentTask := none, progress := 0 } := by
  refine ⟨?_, ?_, ?_, ?_⟩
  · exact ffmpeg_progress_update_spec.2.2.2.2.2.2.2.2.2.1 (-1, 0)
      "time=0:00:21.0" 21 20 parse_sample_line (by norm_num) (by norm_num)
  · have h := ffmpeg_progress_update_spec.2.2.2.2.2.2.2.2.2.2.2.1 (-1, [])
      "time=0:00:21.0" 21 20 parse_sample_line (by norm_num) (by norm_num)
    simpa using h
  · exact ffmpeg_progress_update_spec.2.2.2.1 (some 20) (-1, 0)
      "time=1:2:3.4.5" parse_raise_line
  · exact ffmpeg_progress_update_spec.2.2.2.2.2.1 (some 20)
      ["time=1:2:3.4.5", "time=0:00:21.0"] "could not convert string to float"
      (ffmpeg_progress_update_spec.2.2.2.2.1 (some 20) (-1, 0)
        "time=1:2:3.4.5" ["time=0:00:21.0"] "could not convert string to float"
        (ffmpeg_progress_update_spec.2.2.2.1 (some 20) (-1, 0)
          "time=1:2:3.4.5" parse_raise_line))

/-! ## `WorkerHandler._handle_task` (worker.py lines 63-112)

The handler receives the body, decodes and saves the video, and calls
`_execute_ffmpeg` — at no point does it read the execution-slot status
(`SlotStatus` above).  The ffmpeg exit code is an oracle parameter. -/

/-- A parsed `POST /task` payload. -/
structure TaskRequest where
  taskId : String
  videoName : String
  videoData : String
  ffmpegArgs : List String
  deriving Repr, DecidableEq

inductive TaskResponse
  | success (outputFile : String)
  | fail (error : String)
  deriving Repr, DecidableEq

/-- Embeds `_execute_ffmpeg` (worker.py lines 114-192) at the level of slot
transitions: it overwrites the slot to `processing` at entry, then by the
subprocess returncode; the progress loop in between is `execProgressLine`. -/
def executeFFmpeg (workDir inputName : String) (returncode : Int) :
    TaskResponse × SlotStatus :=
  let outputPath := joinPath workDir ("output_" ++ inputName)
  if returncode = 0 then
    (.success outputPath,
     { status := "completed", currentTask := none, progress := 100 })
  else
    (.fail ("FFmpeg returned code " ++ toString returncode),
     { status := "error", currentTask := none, progress := 0 })

set_option linter.unusedVariables false in
/-- Embeds `_handle_task`: parse the payload, save the upload under the work
directory, run ffmpeg, answer HTTP 200 with the result.  The current slot
`slot` is an argument only to exhibit that the source never consults it:
there is no busy check and no rejection branch. -/
def handleTask (workDir : String) (slot : SlotStatus) (req : TaskRequest)
    (returncode : Int) : Nat × TaskResponse × SlotStatus :=
  let inputPath := joinPath workDir req.videoName
  let r := executeFFmpeg workDir req.videoName returncode
  (200, r.1, r.2)

/-! ## `WorkerHandler._handle_download` (worker.py lines 215-233)

```python
query = parse_qs(urlparse(self.path).query)
filename = query.get("file", [None])[0]
if filename:
    file_path = os.path.join(config.work_dir, filename)
    if os.path.exists(file_path):
        ... 200, serve file ...
self.send_response(404); self.wfile.write(b"File not found")
```
-/

inductive DownloadResponse
  | ok (path : String)
  | notFound (body : String)
  deriving Repr, DecidableEq

/-- Embeds `_handle_download`; `fileParam` is the parsed `file` query value
(`none` when absent — `parse_qs` drops blank values), `fs` the set of
existing paths.  The raw value is joined to the work directory with no
normalisation or containment check. -/
def handleDownload (fs : List String) (workDir : String)
    (fileParam : Option String) : DownloadResponse :=
  match fileParam with
  | some filename =>
    if filename ≠ "" then
      if joinPath workDir filename ∈ fs then .ok (joinPath workDir filename)
      else .notFound "File not found"
    else .notFound "File not found"
  | none => .notFound "File not found"

/-! ## Capability probe -/

structure Capabilities where
  ffmpeg_installed : Bool
  ffmpeg_version : Option String
  encoders : List String
  nvenc_supported : Bool
  deriving Repr, DecidableEq

/-- Modelled from the spec: the worker-side `GET /capabilities` route and the
`get_ffmpeg_version` / `list_ffmpeg_encoders` helpers are referenced by the
repository's tests (`tests/test_worker_capabilities.py`) and GUI
(`gui/worker_app.py`) but are missing from `core/worker.py` as given.  Per
the spec (§4.2, Capability probe): respond HTTP 200 with
`{ffmpeg_installed, ffmpeg_version, encoders, nvenc_supported}`, where
`nvenc_supported = encoders ⊇ {h264_nvenc} ∨ encoders ⊇ {hevc_nvenc}`, and
when the ffmpeg binary is absent respond
`{ffmpeg_installed:false, encoders:[], nvenc_supported:false}` rather than
an error status.  `ffmpegPresent`, `version` and `encoders` stand for the
probe results of `ffmpeg -version` / `ffmpeg -encoders`. -/
def handleCapabilities (ffmpegPresent : Bool) (version : String)
    (encoders : List String) : Nat × Capabilities :=
  if ffmpegPresent then
    (200, { ffmpeg_installed := true, ffmpeg_version := some version,
            encoders := encoders,
            nvenc_supported :=
              encoders.contains "h264_nvenc" || encoders.contains "hevc_nvenc" })
  else
    (200, { ffmpeg_installed := false, ffmpeg_version := none,
            encoders := [], nvenc_supported := false })

/-! ## `DiscoveryService._handle_message` (discovery.py lines 124-166) -/

structure NodeRecord where
  hostname : Option String
  ip : String
  status : String
  lastSeen : Nat
  deriving Repr, DecidableEq

/-- An inbound discovery datagram after JSON parsing; `status` is kept as an
opaque string blob. -/
structure DiscoveryMsg where
  type : String
  hostname : Option String
  status : Option String
  deriving Repr, DecidableEq

/-- The node key `f"{message.get('hostname', 'unknown')}@{sender_ip}"`. -/
def nodeKey (msg : DiscoveryMsg) (senderIp : String) : String :=
  msg.hostname.getD "unknown" ++ "@" ++ senderIp

/-- The record written by `_handle_discovery_response` and
`_handle_heartbeat` (identical bodies, lines 139-144 and 155-160). -/
def mkNodeRecord (msg : DiscoveryMsg) (senderIp : String) (now : Nat) :
    NodeRecord :=
  { hostname := msg.hostname, ip := senderIp,
    status := msg.status.getD "unknown", lastSeen := now }

/-- Python dict assignment `self.discovered_nodes[node_key] = {...}`. -/
def upsert (k : String) (v : NodeRecord) :
    List (String × NodeRecord) → List (String × NodeRecord)
  | [] => [(k, v)]
  | (k', v') :: rest =>
    if k' = k then (k, v) :: rest else (k', v') :: upsert k v rest

def lookupNode (k : String) : List (String × NodeRecord) → Option NodeRecord
  | [] => none
  | (k', v) :: rest => if k' = k then some v else lookupNode k rest

/-- Embeds `_handle_message` restricted to the node-record map: returns the
updated map and whether the `on_node_discovered` callback fires (assuming one
is registered).  The source fires it on every `discovery_response`
(line 148-149) and never in `_handle_heartbeat`. -/
def handleMessage (msg : DiscoveryMsg) (senderIp : String) (now : Nat)
    (nodes : List (String × NodeRecord)) :
    List (String × NodeRecord) × Bool :=
  if msg.type = "discovery_response" then
    (upsert (nodeKey msg senderIp) (mkNodeRecord msg senderIp now) nodes, true)
  else if msg.type = "heartbeat" then
    (upsert (nodeKey msg senderIp) (mkNodeRecord msg senderIp now) nodes, false)
  else (nodes, false)

/-- C4 (code bug in the source): `_handle_task` never consults the execution
slot — its behaviour is identical for every current slot value, it always
answers HTTP 200, and, evaluated while the slot is `processing`, it starts a
new transcode instead of rejecting the request. -/
theorem handle_task_no_busy_rejection :
    (∀ (workDir : String) (slot slot' : SlotStatus) (req : TaskRequest)
        (rc : Int),
      handleTask workDir slot req rc = handleTask workDir slot' req rc) ∧
    (∀ (workDir : String) (slot : SlotStatus) (req : TaskRequest) (rc : Int),
      (handleTask workDir slot req rc).1 = 200) ∧
    handleTask "/work"
        { status := "processing", currentTask := some "a.mp4", progress := 50 }
        { taskId := "task_2", videoName := "b.mp4", videoData := "AAAA",
          ffmpegArgs := [] } 0 =
      (200, .success "/work/output_b.mp4",
       { status := "completed", currentTask := none, progress := 100 }) := by
  refine ⟨fun _ _ _ _ _ => rfl, fun _ _ _ _ => rfl, ?_⟩
  rfl

/-- C10: `GET /download` serves with 200 the file at the raw join of the work
directory and the `file` parameter whenever that path exists — including
traversal values such as `../etc/passwd` — and answers 404 `File not found`
exactly when the parameter is absent or the joined path does not exist. -/
theorem handle_download_spec :
    (∀ (fs : List String) (workDir f : String), f ≠ "" →
      joinPath workDir f ∈ fs →
      handleDownload fs workDir (some f) = .ok (joinPath workDir f)) ∧
    (∀ (fs : List String) (workDir f : String), f ≠ "" →
      joinPath workDir f ∉ fs →
      handleDownload fs workDir (some f) = .notFound "File not found") ∧
    (∀ (fs : List String) (workDir : String),
      handleDownload fs workDir none = .notFound "File not found") ∧
    handleDownload ["/work/../etc/passwd"] "/work" (some "../etc/passwd") =
      .ok "/work/../etc/passwd" := by
  refine ⟨?_, ?_, fun _ _ => rfl, ?_⟩
  · intro fs workDir f hf hmem
    unfold handleDownload
    dsimp only
    rw [if_pos hf, if_pos hmem]
  · intro fs workDir f hf hmem
    unfold handleDownload
    dsimp only
    rw [if_pos hf, if_neg hmem]
  · rfl

/-- Witness for C10: the traversal value `secret/../x.mp4` is served when the
joined path exists. -/
theorem handle_download_spec_witness :
    handleDownload ["/work/secret/../x.mp4"] "/work" (some "secret/../x.mp4") =
      .ok "/work/secret/../x.mp4" := by
  have h := handle_download_spec.1 ["/work/secret/../x.mp4"] "/work"
    "secret/../x.mp4" (by decide) (by decide)
  exact h

/-- C9 (spec-modelled): `GET /capabilities` answers 200 with the capability
descriptor; with the ffmpeg binary present the descriptor carries the probed
version and encoder list and derives `nvenc_supported` from the encoders;
with ffmpeg absent it is `{ffmpeg_installed:false, encoders:[],
nvenc_supported:false}` rather than an error status. -/
theorem capabilities_endpoint_spec :
    (∀ (present : Bool) (v : String) (enc : List String),
      (handleCapabilities present v enc).1 = 200) ∧
    (∀ (v : String) (enc : List String),
      (handleCapabilities false v enc).2 =
        { ffmpeg_installed := false, ffmpeg_version := none,
          encoders := [], nvenc_supported := false }) ∧
    (∀ (v : String) (enc : List String),
      (handleCapabilities true v enc).2 =
        { ffmpeg_installed := true, ffmpeg_version := some v,
          encoders := enc,
          nvenc_supported :=
            enc.contains "h264_nvenc" || enc.contains "hevc_nvenc" }) := by
  refine ⟨?_, fun _ _ => rfl, fun _ _ => rfl⟩
  intro present v enc
  cases present <;> rfl

theorem lookupNode_upsert_self (k : String) (v : NodeRecord) :
    ∀ nodes, lookupNode k (upsert k v nodes) = some v := by
  intro nodes
  induction nodes with
  | nil => simp [upsert, lookupNode]
  | cons p rest ih =>
    obtain ⟨k', v'⟩ := p
    unfold upsert
    by_cases hk : k' = k
    · rw [if_pos hk]
      simp [lookupNode]
    · rw [if_neg hk]
      unfold lookupNode
      rw [if_neg hk]
      exact ih

theorem lookupNode_upsert_other (k k' : String) (v : NodeRecord)
    (hk : k' ≠ k) :
    ∀ nodes, lookupNode k' (upsert k v nodes) = lookupNode k' nodes := by
  intro nodes
  induction nodes with
  | nil => simp [upsert, lookupNode, Ne.symm hk]
  | cons p rest ih =>
    obtain ⟨k₀, v₀⟩ := p
    unfold upsert
    by_cases h0 : k₀ = k
    · rw [if_pos h0]
      unfold lookupNode
      rw [if_neg (Ne.symm hk), if_neg (h0 ▸ Ne.symm hk)]
    · rw [if_neg h0]
      unfold lookupNode
      by_cases h1 : k₀ = k'
      · rw [if_pos h1, if_pos h1]
      · rw [if_neg h1, if_neg h1]
        exact ih

/-- Counterexample to C8 as stated: a second `discovery_response` for an
already-recorded node key fires `on_node_discovered` again, and a
first-sighting `heartbeat` does not fire it at all. -/
theorem discovery_callback_counterexample :
    (lookupNode "h@10.0.0.2"
      ((handleMessage
        { type := "discovery_response", hostname := some "h", status := some "idle" }
        "10.0.0.2" 0 []).1)).isSome = true ∧
    (handleMessage
      { type := "discovery_response", hostname := some "h", status := some "idle" }
      "10.0.0.2" 1
      ((handleMessage
        { type := "discovery_response", hostname := some "h", status := some "idle" }
        "10.0.0.2" 0 []).1)).2 = true ∧
    (handleMessage
      { type := "heartbeat", hostname := some "g", status := some "idle" }
      "10.0.0.3" 0 []).2 = false :=
  ⟨rfl, rfl, rfl⟩

/-- C8 (corrected): every valid `discovery_response` or `heartbeat` upserts
the node record keyed `hostname@ip` with a fresh `last_seen`, identically for
both message types; but the `on_node_discovered` callback fires on every
`discovery_response` — first sighting or not — and never on a `heartbeat`. -/
theorem discovery_upsert_spec :
    (∀ (msg : DiscoveryMsg) (ip : String) (now : Nat)
        (nodes : List (String × NodeRecord)), msg.type = "discovery_response" →
      handleMessage msg ip now nodes =
        (upsert (nodeKey msg ip) (mkNodeRecord msg ip now) nodes, true)) ∧
    (∀ (msg : DiscoveryMsg) (ip : String) (now : Nat)
        (nodes : List (String × NodeRecord)), msg.type = "heartbeat" →
      handleMessage msg ip now nodes =
        (upsert (nodeKey msg ip) (mkNodeRecord msg ip now) nodes, false)) ∧
    (∀ (msg : DiscoveryMsg) (ip : String) (now : Nat),
      (mkNodeRecord msg ip now).lastSeen = now) ∧
    (∀ (k : String) (v : NodeRecord) (nodes : List (String × NodeRecord)),
      lookupNode k (upsert k v nodes) = some v) ∧
    (∀ (k k' : String) (v : NodeRecord) (nodes : List (String × NodeRecord)),
      k' ≠ k → lookupNode k' (upsert k v nodes) = lookupNode k' nodes) := by
  refine ⟨?_, ?_, fun _ _ _ => rfl,
    fun k v nodes => lookupNode_upsert_self k v nodes,
    fun k k' v nodes hk => lookupNode_upsert_other k k' v hk nodes⟩
  · intro msg ip now nodes htype
    unfold handleMessage
    rw [if_pos htype]
  · intro msg ip now nodes htype
    unfold handleMessage
    rw [if_neg (by rw [htype]; decide), if_pos htype]

/-- Witness for C8 at a concrete heartbeat: the record is upserted with the
stamped `last_seen` and no callback fires. -/
theorem discovery_upsert_spec_witness :
    handleMessage
        { type := "heartbeat", hostname := some "h", status := some "idle" }
        "10.0.0.2" 7 [] =
      ([("h@10.0.0.2",
         { hostname := some "h", ip := "10.0.0.2", status := "idle",
           lastSeen := 7 })], false) := by
  have h := discovery_upsert_spec.2.1
    { type := "heartbeat", hostname := some "h", status := some "idle" }
    "10.0.0.2" 7 [] rfl
  exact h

end TranscoderCluster
